import Mathlib

/-!
Verification of the gas-metering storage decorator `MemoryStorageWithGas`
(`src/lib.rs` and `src/impls.rs`).

The decorator wraps an in-memory ordered key-value store and charges a
deterministic "gas" amount on every get / set / remove / range-item pull,
accumulating the charges in a `StorageGasUsed` counter held behind interior
mutability.

Modelling conventions:
* Rust `u64` arithmetic is modelled as `Nat` with explicit reduction
  modulo `2 ^ 64` (`u64add`, `u64mul`), the wrapping semantics of the
  machine integers the counter uses.
* Byte strings (`Vec<u8>` / `&[u8]`) are modelled as `List Nat`.
* The inner map (`cosmwasm_std::MemoryStorage`, a `BTreeMap<Vec<u8>, Vec<u8>>`)
  is an external collaborator of this crate; it is modelled as a
  key-sorted association list with the contract of spec §6
  (byte-lexicographic key order, `[start, end)` range bounds).
* `range` returns the (finite) sequence of matching records; consuming one
  item of that sequence is the explicit step `pullOne`, which performs the
  per-item charging done in the Rust iterator closure.
-/

namespace CwGas

/-- `2 ^ 64`, the modulus of Rust `u64` arithmetic. -/
def M : Nat := 2 ^ 64

/-- Wrapping `u64` addition. -/
def u64add (a b : Nat) : Nat := (a + b) % M

/-- Wrapping `u64` multiplication. -/
def u64mul (a b : Nat) : Nat := (a * b) % M

/-- A byte string (Rust `Vec<u8>` / `&[u8]`). -/
abbrev Bytes := List Nat

/-- A record yielded by `range`: a key/value pair (`cosmwasm_std::Record`). -/
abbrev Record := Bytes × Bytes

/-- Iteration order of `range` (`cosmwasm_std::Order`). -/
inductive Order where
  | ascending : Order
  | descending : Order
deriving DecidableEq

/-- Byte-lexicographic strict order on byte strings (the `Ord` instance of
`Vec<u8>` used by the inner `BTreeMap`). -/
def lexLt : Bytes → Bytes → Bool
  | [], [] => false
  | [], _ :: _ => true
  | _ :: _, [] => false
  | a :: as, b :: bs => if a < b then true else if b < a then false else lexLt as bs

/-- The inner map: a key-sorted association list of records. -/
abbrev Mem := List Record

/-- Model of the external collaborator `MemoryStorage::get` (spec §6):
look the key up in the map. -/
def mget (k : Bytes) : Mem → Option Bytes
  | [] => none
  | (k', v') :: rest => if k = k' then some v' else mget k rest

/-- Model of the external collaborator `MemoryStorage::set` (spec §6):
insert the key/value pair, keeping keys sorted and unique. -/
def mset (k v : Bytes) : Mem → Mem
  | [] => [(k, v)]
  | (k', v') :: rest =>
    if lexLt k k' then (k, v) :: (k', v') :: rest
    else if k = k' then (k, v) :: rest
    else (k', v') :: mset k v rest

/-- Model of the external collaborator `MemoryStorage::remove` (spec §6):
delete the key from the map. -/
def mremove (k : Bytes) (m : Mem) : Mem :=
  m.filter (fun e => decide (e.1 ≠ k))

/-- Is `k` inside the `[start, end)` bound of a `range` call
(`none` meaning unbounded on that side)? -/
def inBound (start stop : Option Bytes) (k : Bytes) : Bool :=
  (match start with
   | none => true
   | some s => !(lexLt k s)) &&
  (match stop with
   | none => true
   | some e => lexLt k e)

/-- Model of the external collaborator `MemoryStorage::range` (spec §6):
the matching records in the requested key order. -/
def mrange (start stop : Option Bytes) (ord : Order) (m : Mem) : List Record :=
  let l := m.filter (fun e => inBound start stop e.1)
  match ord with
  | .ascending => l
  | .descending => l.reverse

/-- `StorageGasConfig` (src/lib.rs lines 66-75): the immutable cost model.
All fields are `u64` price constants. -/
structure StorageGasConfig where
  has_cost : Nat
  delete_cost : Nat
  read_cost_flat : Nat
  read_cost_per_byte : Nat
  write_cost_flat : Nat
  write_cost_per_byte : Nat
  iter_next_cost_flat : Nat
deriving DecidableEq

/-- The `Default` instance of `StorageGasConfig` (src/lib.rs lines 77-89). -/
def StorageGasConfig.default : StorageGasConfig :=
  { has_cost := 1000
    delete_cost := 1000
    read_cost_flat := 1000
    read_cost_per_byte := 3
    write_cost_flat := 2000
    write_cost_per_byte := 30
    iter_next_cost_flat := 30 }

/-- `StorageGasUsed` (src/lib.rs lines 55-63): the mutable usage counter.
All fields are `u64`. -/
structure StorageGasUsed where
  total : Nat
  last : Nat
  read_cnt : Nat
  write_cnt : Nat
  delete_cnt : Nat
  iter_next_cnt : Nat
deriving DecidableEq

/-- The `Default` instance of `StorageGasUsed`: all fields zero. -/
def StorageGasUsed.default : StorageGasUsed :=
  { total := 0, last := 0, read_cnt := 0, write_cnt := 0
    delete_cnt := 0, iter_next_cnt := 0 }

/-- `MemoryStorageWithGas` (src/lib.rs lines 8-13): the decorator. The
`RefCell` around `gas_used` is interior mutability; in this sequential
model state passing makes every mutation explicit. -/
structure MemoryStorageWithGas where
  storage : Mem
  gas_used : StorageGasUsed
  gas_config : StorageGasConfig
deriving DecidableEq

namespace MemoryStorageWithGas

/-- `MemoryStorageWithGas::new` (src/lib.rs lines 17-19): default instance. -/
def new : MemoryStorageWithGas :=
  { storage := [], gas_used := .default, gas_config := .default }

/-- `MemoryStorageWithGas::new_with_gas_config` (src/lib.rs lines 22-27). -/
def new_with_gas_config (gas_config : StorageGasConfig) : MemoryStorageWithGas :=
  { storage := [], gas_used := .default, gas_config := gas_config }

/-- `MemoryStorageWithGas::total_gas_used` (src/lib.rs lines 31-33). -/
def total_gas_used (s : MemoryStorageWithGas) : Nat :=
  s.gas_used.total

/-- `MemoryStorageWithGas::last_gas_used` (src/lib.rs lines 37-39). -/
def last_gas_used (s : MemoryStorageWithGas) : Nat :=
  s.gas_used.last

/-- `MemoryStorageWithGas::reset_gas` (src/lib.rs lines 42-44):
`self.gas_used.borrow_mut().total = 0`. -/
def reset_gas (s : MemoryStorageWithGas) : MemoryStorageWithGas :=
  { s with gas_used := { s.gas_used with total := 0 } }

/-- Length of `value.as_ref().unwrap_or(&Vec::new())`: the returned value's
byte length, or 0 when the key is absent. -/
def optLen : Option Bytes → Nat
  | none => 0
  | some v => v.length

/-- The charge of one `get` (src/lib.rs lines 97-99):
`read_cost_flat + (key.len() + value.len()) as u64 * read_cost_per_byte`,
in `u64` arithmetic. -/
def chargeGet (c : StorageGasConfig) (klen vlen : Nat) : Nat :=
  u64add c.read_cost_flat (u64mul (u64add klen vlen) c.read_cost_per_byte)

/-- The charge of one `set` (src/lib.rs lines 129-130):
`write_cost_flat + (key.len() + value.len()) as u64 * write_cost_per_byte`,
in `u64` arithmetic. -/
def chargeSet (c : StorageGasConfig) (klen vlen : Nat) : Nat :=
  u64add c.write_cost_flat (u64mul (u64add klen vlen) c.write_cost_per_byte)

/-- The charge of one range-item pull (src/lib.rs lines 116-118):
`iter_next_cost_flat + read_cost_flat + (e.0.len() + e.1.len()) as u64 *
read_cost_per_byte`, in `u64` arithmetic. -/
def chargeIter (c : StorageGasConfig) (klen vlen : Nat) : Nat :=
  u64add (u64add c.iter_next_cost_flat c.read_cost_flat)
    (u64mul (u64add klen vlen) c.read_cost_per_byte)

/-- `Storage::get` for `MemoryStorageWithGas` (src/lib.rs lines 92-105,
src/impls.rs lines 43-56): read the inner map, charge
`chargeGet`, set `last`, accumulate `total`, bump `read_cnt`, and return
the inner map's value unchanged. -/
def get (s : MemoryStorageWithGas) (key : Bytes) :
    Option Bytes × MemoryStorageWithGas :=
  let value := mget key s.storage
  let c := chargeGet s.gas_config key.length (optLen value)
  (value,
    { s with gas_used :=
      { s.gas_used with
        last := c
        total := u64add s.gas_used.total c
        read_cnt := u64add s.gas_used.read_cnt 1 } })

/-- `Storage::set` for `MemoryStorageWithGas` (src/lib.rs lines 126-136,
src/impls.rs lines 84-94): charge `chargeSet`, set `last`, accumulate
`total`, bump `write_cnt`, then store the value in the inner map. -/
def set (s : MemoryStorageWithGas) (key value : Bytes) : MemoryStorageWithGas :=
  let c := chargeSet s.gas_config key.length value.length
  { s with
    storage := mset key value s.storage
    gas_used :=
      { s.gas_used with
        last := c
        total := u64add s.gas_used.total c
        write_cnt := u64add s.gas_used.write_cnt 1 } }

/-- `Storage::remove` for `MemoryStorageWithGas` (src/lib.rs lines 138-147,
src/impls.rs lines 96-105): charge the flat `delete_cost`, set `last`,
accumulate `total`, bump `delete_cnt`, then delete the key from the inner
map. -/
def remove (s : MemoryStorageWithGas) (key : Bytes) : MemoryStorageWithGas :=
  let c := s.gas_config.delete_cost
  { s with
    storage := mremove key s.storage
    gas_used :=
      { s.gas_used with
        last := c
        total := u64add s.gas_used.total c
        delete_cnt := u64add s.gas_used.delete_cnt 1 } }

/-- `Storage::range` for `MemoryStorageWithGas` (src/lib.rs lines 107-124,
src/impls.rs lines 58-82): produce the sequence of matching records
captured from the inner map at call time (src/impls.rs materializes it with
`collect()`), charging nothing at the call itself. Per-item charging
happens when an item is pulled (`pullOne`). -/
def range (s : MemoryStorageWithGas) (start stop : Option Bytes)
    (ord : Order) : List Record × MemoryStorageWithGas :=
  (mrange start stop ord s.storage, s)

/-- Pulling one record from a `range` sequence (the `map` closure,
src/lib.rs lines 113-123 / src/impls.rs lines 70-80): charge `chargeIter`,
set `last`, accumulate `total`, bump `iter_next_cnt`, and yield the record
unchanged. -/
def pullOne (s : MemoryStorageWithGas) (e : Record) : MemoryStorageWithGas :=
  let c := chargeIter s.gas_config e.1.length e.2.length
  { s with gas_used :=
    { s.gas_used with
      last := c
      total := u64add s.gas_used.total c
      iter_next_cnt := u64add s.gas_used.iter_next_cnt 1 } }

/-- Pulling every record of a `range` sequence in order. -/
def pullAll (s : MemoryStorageWithGas) (l : List Record) : MemoryStorageWithGas :=
  l.foldl pullOne s

end MemoryStorageWithGas

/-- `Storage::get` for `&MemoryStorageWithGas` (src/impls.rs lines 109-111):
delegates to `MemoryStorageWithGas::get`. -/
def refGet (s : MemoryStorageWithGas) (key : Bytes) :
    Option Bytes × MemoryStorageWithGas :=
  MemoryStorageWithGas.get s key

/-- `Storage::range` for `&MemoryStorageWithGas` (src/impls.rs lines
113-120): delegates to `MemoryStorageWithGas::range`. -/
def refRange (s : MemoryStorageWithGas) (start stop : Option Bytes)
    (ord : Order) : List Record × MemoryStorageWithGas :=
  MemoryStorageWithGas.range s start stop ord

/-- `Storage::set` for `&MemoryStorageWithGas` (src/impls.rs lines 122-132):
a literal copy of the owned implementation's body. -/
def refSet (s : MemoryStorageWithGas) (key value : Bytes) :
    MemoryStorageWithGas :=
  let c := u64add s.gas_config.write_cost_flat
    (u64mul (u64add key.length value.length) s.gas_config.write_cost_per_byte)
  { s with
    storage := mset key value s.storage
    gas_used :=
      { s.gas_used with
        last := c
        total := u64add s.gas_used.total c
        write_cnt := u64add s.gas_used.write_cnt 1 } }

/-- `Storage::remove` for `&MemoryStorageWithGas` (src/impls.rs lines
134-143): a literal copy of the owned implementation's body. -/
def refRemove (s : MemoryStorageWithGas) (key : Bytes) : MemoryStorageWithGas :=
  let c := s.gas_config.delete_cost
  { s with
    storage := mremove key s.storage
    gas_used :=
      { s.gas_used with
        last := c
        total := u64add s.gas_used.total c
        delete_cnt := u64add s.gas_used.delete_cnt 1 } }

/-- A storage operation issued by a sequential caller: the three direct
operations plus the pull of one record `(k, v)` from a `range` sequence. -/
inductive Op where
  | get : Bytes → Op
  | set : Bytes → Bytes → Op
  | remove : Bytes → Op
  | rangePull : Bytes → Bytes → Op

open MemoryStorageWithGas in
/-- One operation applied to the decorator state. -/
def step (s : MemoryStorageWithGas) : Op → MemoryStorageWithGas
  | .get k => (MemoryStorageWithGas.get s k).2
  | .set k v => MemoryStorageWithGas.set s k v
  | .remove k => MemoryStorageWithGas.remove s k
  | .rangePull k v => pullOne s (k, v)

/-- A sequence of operations applied in issuance order. -/
def run (s : MemoryStorageWithGas) : List Op → MemoryStorageWithGas
  | [] => s
  | op :: rest => run (step s op) rest

open MemoryStorageWithGas in
/-- The formula-computed charge of one operation at the current state
(§4.3 table). -/
def opCharge (s : MemoryStorageWithGas) : Op → Nat
  | .get k => chargeGet s.gas_config k.length (optLen (mget k s.storage))
  | .set k v => chargeSet s.gas_config k.length v.length
  | .remove _ => s.gas_config.delete_cost
  | .rangePull k v => chargeIter s.gas_config k.length v.length

/-- The charges of a sequence of operations, in issuance order. -/
def chargesOf (s : MemoryStorageWithGas) : List Op → List Nat
  | [] => []
  | op :: rest => opCharge s op :: chargesOf (step s op) rest

/-- The same decorator state with the cost model's `has_cost` replaced. -/
def withHasCost (s : MemoryStorageWithGas) (h : Nat) : MemoryStorageWithGas :=
  { s with gas_config := { s.gas_config with has_cost := h } }

/-- A cost model whose flat write cost is the largest `u64` value,
constructible through `new_with_gas_config`. -/
def overflowConfig : StorageGasConfig :=
  { has_cost := 1000
    delete_cost := 1000
    read_cost_flat := 1000
    read_cost_per_byte := 3
    write_cost_flat := 2 ^ 64 - 1
    write_cost_per_byte := 30
    iter_next_cost_flat := 30 }

section Lemmas

open MemoryStorageWithGas

/-- `u64` addition stays below the modulus. -/
theorem u64add_lt (a b : Nat) : u64add a b < M :=
  Nat.mod_lt _ (by decide)

/-- Every operation updates `total` by `u64`-adding its own charge. -/
theorem step_gas_total (s : MemoryStorageWithGas) (op : Op) :
    (step s op).gas_used.total = u64add s.gas_used.total (opCharge s op) := by
  cases op <;> rfl

/-- Every operation sets `last` to its own charge. -/
theorem step_gas_last (s : MemoryStorageWithGas) (op : Op) :
    (step s op).gas_used.last = opCharge s op := by
  cases op <;> rfl

/-- No operation changes the cost model. -/
theorem step_gas_config (s : MemoryStorageWithGas) (op : Op) :
    (step s op).gas_config = s.gas_config := by
  cases op <;> rfl

/-- No run of operations changes the cost model. -/
theorem run_gas_config (ops : List Op) (s : MemoryStorageWithGas) :
    (run s ops).gas_config = s.gas_config := by
  induction ops generalizing s with
  | nil => rfl
  | cons op rest ih => rw [run, ih, step_gas_config]

/-- `total` after a run is the `u64` (wrapping) sum of the starting total
and the charges along the run. -/
theorem run_gas_total (ops : List Op) (s : MemoryStorageWithGas)
    (h : s.gas_used.total < M) :
    (run s ops).gas_used.total = (s.gas_used.total + (chargesOf s ops).sum) % M := by
  induction ops generalizing s with
  | nil => simpa [run, chargesOf] using (Nat.mod_eq_of_lt h).symm
  | cons op rest ih =>
    rw [run, chargesOf, List.sum_cons,
      ih (step s op) (by rw [step_gas_total]; exact u64add_lt _ _),
      step_gas_total]
    unfold u64add
    rw [Nat.mod_add_mod, Nat.add_assoc]

/-- `last` after a run is the last charge along the run (or the starting
`last` if the run is empty). -/
theorem run_gas_last (ops : List Op) (s : MemoryStorageWithGas) :
    (run s ops).gas_used.last = (chargesOf s ops).getLastD s.gas_used.last := by
  induction ops generalizing s with
  | nil => rfl
  | cons op rest ih =>
    rw [run, chargesOf, List.getLastD_cons, ih, step_gas_last]

/-- Looking up a key right after setting it returns the set value. -/
theorem mget_mset_self (k v : Bytes) (m : Mem) :
    mget k (mset k v m) = some v := by
  induction m with
  | nil => simp [mset, mget]
  | cons e rest ih =>
    obtain ⟨k', v'⟩ := e
    simp only [mset]
    split
    · simp [mget]
    · split
      · simp [mget]
      · next h2 => simp [mget, h2, ih]

/-- Looking up a key right after removing it finds nothing. -/
theorem mget_mremove_self (k : Bytes) (m : Mem) :
    mget k (mremove k m) = none := by
  induction m with
  | nil => simp [mremove, mget]
  | cons e rest ih =>
    obtain ⟨k', v'⟩ := e
    by_cases hk : k' = k
    · simpa [mremove, List.filter_cons, hk] using ih
    · have hne : ¬k = k' := fun h => hk h.symm
      simpa [mremove, List.filter_cons, hk, mget, hne] using ih

/-- Replacing `has_cost` commutes with every operation: no operation reads
it. -/
theorem step_withHasCost (s : MemoryStorageWithGas) (h : Nat) (op : Op) :
    step (withHasCost s h) op = withHasCost (step s op) h := by
  cases op <;> rfl

/-- Replacing `has_cost` commutes with whole runs. -/
theorem run_withHasCost (ops : List Op) (s : MemoryStorageWithGas) (h : Nat) :
    run (withHasCost s h) ops = withHasCost (run s ops) h := by
  induction ops generalizing s with
  | nil => rfl
  | cons op rest ih => rw [run, step_withHasCost, ih, run]

end Lemmas

section Claims

open MemoryStorageWithGas

/-- C1: for every sequence of storage operations (get, set, remove,
range-item pulls) issued sequentially on a freshly constructed decorator,
`total` equals the `u64` sum of the operations' formula-computed charges in
issuance order, and `last` equals the final operation's charge (0 for the
empty sequence, the initial `last`). -/
theorem total_is_sum_of_charges_in_order (c : StorageGasConfig) (ops : List Op) :
    (run (new_with_gas_config c) ops).gas_used.total
        = (chargesOf (new_with_gas_config c) ops).sum % M ∧
    (run (new_with_gas_config c) ops).gas_used.last
        = (chargesOf (new_with_gas_config c) ops).getLastD 0 := by
  have h0 : (new_with_gas_config c).gas_used.total = 0 := rfl
  have h1 : (new_with_gas_config c).gas_used.last = 0 := rfl
  constructor
  · rw [run_gas_total ops (new_with_gas_config c) (by rw [h0]; decide), h0,
      Nat.zero_add]
  · rw [run_gas_last, h1]

/-- C2: `get` returns the inner map's optional value unchanged, charges
`read_cost_flat + (len(key) + len(value_or_empty)) * read_cost_per_byte`,
sets `last` to that charge, `u64`-adds it to `total`, increments
`read_cnt` by exactly 1 regardless of hit or miss, and leaves the other
counts, the inner map and the cost model unchanged. -/
theorem get_returns_value_and_meters_read (s : MemoryStorageWithGas) (k : Bytes) :
    (get s k).1 = mget k s.storage ∧
    (get s k).2.gas_used.last
        = chargeGet s.gas_config k.length (optLen (mget k s.storage)) ∧
    (get s k).2.gas_used.total
        = u64add s.gas_used.total
            (chargeGet s.gas_config k.length (optLen (mget k s.storage))) ∧
    (get s k).2.gas_used.read_cnt = u64add s.gas_used.read_cnt 1 ∧
    (get s k).2.gas_used.write_cnt = s.gas_used.write_cnt ∧
    (get s k).2.gas_used.delete_cnt = s.gas_used.delete_cnt ∧
    (get s k).2.gas_used.iter_next_cnt = s.gas_used.iter_next_cnt ∧
    (get s k).2.storage = s.storage ∧
    (get s k).2.gas_config = s.gas_config :=
  ⟨rfl, rfl, rfl, rfl, rfl, rfl, rfl, rfl, rfl⟩

/-- C3: `set` charges `write_cost_flat + (len(key) + len(value)) *
write_cost_per_byte`, sets `last` to that charge, `u64`-adds it to `total`,
increments `write_cnt` by exactly 1, leaves the other counts and the cost
model unchanged, and stores the value in the inner map: a subsequent `get`
of that key returns it. -/
theorem set_stores_value_and_meters_write (s : MemoryStorageWithGas)
    (k v : Bytes) :
    (set s k v).gas_used.last = chargeSet s.gas_config k.length v.length ∧
    (set s k v).gas_used.total
        = u64add s.gas_used.total (chargeSet s.gas_config k.length v.length) ∧
    (set s k v).gas_used.write_cnt = u64add s.gas_used.write_cnt 1 ∧
    (set s k v).gas_used.read_cnt = s.gas_used.read_cnt ∧
    (set s k v).gas_used.delete_cnt = s.gas_used.delete_cnt ∧
    (set s k v).gas_used.iter_next_cnt = s.gas_used.iter_next_cnt ∧
    (set s k v).storage = mset k v s.storage ∧
    (set s k v).gas_config = s.gas_config ∧
    (get (set s k v) k).1 = some v :=
  ⟨rfl, rfl, rfl, rfl, rfl, rfl, rfl, rfl, mget_mset_self k v s.storage⟩

/-- C4: `remove` charges exactly the flat `delete_cost`, independent of the
key's length and of whether the key was present, sets `last` to that
charge, `u64`-adds it to `total`, increments `delete_cnt` by exactly 1,
leaves the other counts and the cost model unchanged, and deletes the key
from the inner map: a subsequent `get` of that key returns nothing. -/
theorem remove_deletes_key_and_charges_flat (s : MemoryStorageWithGas)
    (k : Bytes) :
    (remove s k).gas_used.last = s.gas_config.delete_cost ∧
    (remove s k).gas_used.total
        = u64add s.gas_used.total s.gas_config.delete_cost ∧
    (remove s k).gas_used.delete_cnt = u64add s.gas_used.delete_cnt 1 ∧
    (remove s k).gas_used.read_cnt = s.gas_used.read_cnt ∧
    (remove s k).gas_used.write_cnt = s.gas_used.write_cnt ∧
    (remove s k).gas_used.iter_next_cnt = s.gas_used.iter_next_cnt ∧
    (remove s k).storage = mremove k s.storage ∧
    (remove s k).gas_config = s.gas_config ∧
    (get (remove s k) k).1 = none :=
  ⟨rfl, rfl, rfl, rfl, rfl, rfl, rfl, rfl, mget_mremove_self k s.storage⟩

/-- C5: the `range` call itself leaves the whole decorator state (total,
last, all counts, map, cost model) unchanged; the per-item charge
`iter_next_cost_flat + read_cost_flat + (len(key) + len(value)) *
read_cost_per_byte` is applied once per item actually pulled from the
produced sequence, setting `last`, `u64`-accumulating `total` and
incrementing `iter_next_cnt` by exactly 1 per item, with the other counts,
the map and the cost model untouched. -/
theorem range_charges_only_per_pulled_item (s : MemoryStorageWithGas)
    (start stop : Option Bytes) (ord : Order) (e : Record) :
    (range s start stop ord).2 = s ∧
    (pullOne s e).gas_used.last
        = chargeIter s.gas_config e.1.length e.2.length ∧
    (pullOne s e).gas_used.total
        = u64add s.gas_used.total (chargeIter s.gas_config e.1.length e.2.length) ∧
    (pullOne s e).gas_used.iter_next_cnt = u64add s.gas_used.iter_next_cnt 1 ∧
    (pullOne s e).gas_used.read_cnt = s.gas_used.read_cnt ∧
    (pullOne s e).gas_used.write_cnt = s.gas_used.write_cnt ∧
    (pullOne s e).gas_used.delete_cnt = s.gas_used.delete_cnt ∧
    (pullOne s e).storage = s.storage ∧
    (pullOne s e).gas_config = s.gas_config :=
  ⟨rfl, rfl, rfl, rfl, rfl, rfl, rfl, rfl, rfl⟩

/-- C6: each operation of the shared-reference implementation
(`Storage for &MemoryStorageWithGas`, src/impls.rs lines 108-144) produces
exactly the same result and the same decorator state (inner map, total,
last, all counts) as the owned implementation. -/
theorem ref_impl_equals_owned_impl (s : MemoryStorageWithGas)
    (k v : Bytes) (start stop : Option Bytes) (ord : Order) :
    refGet s k = get s k ∧
    refRange s start stop ord = range s start stop ord ∧
    refSet s k v = set s k v ∧
    refRemove s k = remove s k :=
  ⟨rfl, rfl, rfl, rfl⟩

/-- C7: `reset_gas` sets `total` to 0 and leaves `last`, all per-kind
counts, the inner map contents and the cost model unchanged. -/
theorem reset_gas_zeroes_only_total (s : MemoryStorageWithGas) :
    (reset_gas s).gas_used.total = 0 ∧
    (reset_gas s).gas_used.last = s.gas_used.last ∧
    (reset_gas s).gas_used.read_cnt = s.gas_used.read_cnt ∧
    (reset_gas s).gas_used.write_cnt = s.gas_used.write_cnt ∧
    (reset_gas s).gas_used.delete_cnt = s.gas_used.delete_cnt ∧
    (reset_gas s).gas_used.iter_next_cnt = s.gas_used.iter_next_cnt ∧
    (reset_gas s).storage = s.storage ∧
    (reset_gas s).gas_config = s.gas_config :=
  ⟨rfl, rfl, rfl, rfl, rfl, rfl, rfl, rfl⟩

/-- C8 (counterexample): with a cost model whose flat write cost is the
largest `u64` value (constructible via `new_with_gas_config`), the second
`set` wraps the `u64` accumulator and `total` strictly decreases across a
storage operation with no reset: the claimed unconditional monotonicity
fails under the counter's wrapping `u64` arithmetic. -/
theorem total_decreases_on_u64_overflow :
    (set (set (new_with_gas_config overflowConfig) [] []) [] []).gas_used.total
      < (set (new_with_gas_config overflowConfig) [] []).gas_used.total := by
  decide

/-- C8 (amended): across every storage operation whose `u64` accumulation
does not overflow (`total + charge < 2 ^ 64`), `total` is non-decreasing;
it is diminished only by an explicit `reset_gas` (or by `u64` wrap-around
on overflow). -/
theorem total_monotone_without_overflow (s : MemoryStorageWithGas) (op : Op)
    (h : s.gas_used.total + opCharge s op < M) :
    s.gas_used.total ≤ (step s op).gas_used.total := by
  rw [step_gas_total]
  unfold u64add
  rw [Nat.mod_eq_of_lt h]
  exact Nat.le_add_right _ _

/-- C8 (witness): the monotonicity theorem applied to a `get` on a fresh
default decorator. -/
theorem total_monotone_without_overflow_witness :
    MemoryStorageWithGas.new.gas_used.total
        + opCharge MemoryStorageWithGas.new (Op.get []) < M ∧
    MemoryStorageWithGas.new.gas_used.total
        ≤ (step MemoryStorageWithGas.new (Op.get [])).gas_used.total :=
  ⟨by decide, total_monotone_without_overflow MemoryStorageWithGas.new (Op.get []) (by decide)⟩

/-- C9: no operation charges `has_cost`: two decorators differing only in
the cost model's `has_cost` produce identical counter states (total, last,
all counts) and identical inner maps on every operation sequence. -/
theorem counter_independent_of_has_cost (c : StorageGasConfig) (h : Nat)
    (ops : List Op) :
    (run (new_with_gas_config { c with has_cost := h }) ops).gas_used
        = (run (new_with_gas_config c) ops).gas_used ∧
    (run (new_with_gas_config { c with has_cost := h }) ops).storage
        = (run (new_with_gas_config c) ops).storage := by
  have e : new_with_gas_config { c with has_cost := h }
      = withHasCost (new_with_gas_config c) h := rfl
  rw [e, run_withHasCost]
  exact ⟨rfl, rfl⟩

/-- C10: `range` materializes its matching records from the inner map at
the moment of the call, and operations performed after the call (set,
remove, or any others) neither change which items the produced sequence
yields nor the per-item charge applied when each item is pulled. -/
theorem range_snapshot_unaffected_by_later_writes (s : MemoryStorageWithGas)
    (start stop : Option Bytes) (ord : Order) (ops : List Op) :
    (range s start stop ord).1 = mrange start stop ord s.storage ∧
    ((range s start stop ord).1).map
        (fun e => chargeIter (run (range s start stop ord).2 ops).gas_config
          e.1.length e.2.length)
      = ((range s start stop ord).1).map
        (fun e => chargeIter s.gas_config e.1.length e.2.length) := by
  refine ⟨rfl, ?_⟩
  rw [run_gas_config]
  rfl

end Claims

end CwGas
